import Mathlib

/-!
Verification of the `SparseSet` data structure from `src/sparse_set.ts`
(yazmeyaa/ts-sparse-set), together with the alternative bounds-checked
implementation found in the repository's unnamed sources.

The embedding models a JavaScript `Array` as a `List (Option α)`: a slot
holds `none` when the corresponding JS slot is a hole (never assigned,
created by extending `length`, or produced by `delete`), so that an
indexed read returning `undefined` is modelled by `none`.  The primitive
accessors below mirror the exact JS array operations the source uses:
indexed read, indexed write (which auto-extends the array when writing
past the end), `delete arr[i]`, assignment to `arr.length`, and `pop()`.
-/

namespace SparseSetVerif

/-- JS indexed read `l[i]`: `none` both past the end and on a hole. -/
def jsGet (l : List (Option α)) (i : Nat) : Option α :=
  l[i]?.join

/-- JS indexed write `l[i] = v` where `v` itself may be `undefined`:
overwrites in range, otherwise pads with holes up to `i` and appends. -/
def jsWriteOpt (l : List (Option α)) (i : Nat) (v : Option α) : List (Option α) :=
  if i < l.length then l.set i v
  else l ++ List.replicate (i - l.length) none ++ [v]

/-- JS indexed write `l[i] = v` of a defined value. -/
def jsWrite (l : List (Option α)) (i : Nat) (v : α) : List (Option α) :=
  jsWriteOpt l i (some v)

/-- JS `delete l[i]`: punches a hole in range, no-op past the end
(the length is unchanged either way). -/
def jsDelete (l : List (Option α)) (i : Nat) : List (Option α) :=
  if i < l.length then l.set i none else l

/-- JS `l.length = n`: truncates when shrinking, pads with holes when
growing. -/
def jsSetLength (l : List (Option α)) (n : Nat) : List (Option α) :=
  if n ≤ l.length then l.take n else l ++ List.replicate (n - l.length) none

/-- JS `l.pop()` as a state transformer (the popped value is unused by
the source except for its removal). -/
def jsPop (l : List (Option α)) : List (Option α) :=
  l.dropLast

/-- The three parallel arrays of `SparseSet<V>` (`sparse`, `dense`,
`data` fields of the class, all initialised to `[]`). -/
structure SparseSet (V : Type u) where
  sparse : List (Option Nat)
  dense : List (Option Nat)
  data : List (Option V)

namespace SparseSet

variable {V : Type u}

/-- The freshly constructed set: all three arrays empty. -/
def mkEmpty : SparseSet V :=
  ⟨[], [], []⟩

/-- The `while (newLen <= minId) newLen *= 2;` loop of `growSparse`,
with explicit fuel.  `growSparse` calls it with fuel `minId + 1`, which
is enough for the loop to run to completion whenever the starting value
is at least 1 (lemma `growLoop_gt` below), as it always is in the
source (`1024` or twice a positive length). -/
def growLoop : Nat → Nat → Nat → Nat
  | 0, newLen, _ => newLen
  | fuel + 1, newLen, minId =>
    if newLen ≤ minId then growLoop fuel (newLen * 2) minId else newLen

/-- `growSparse(minId)`: if `minId < sparse.length` do nothing, else
extend `sparse.length` to the first value of the doubling sequence
(starting at 1024 for an empty sparse array, at twice the length
otherwise) that exceeds `minId`. -/
def growSparse (s : SparseSet V) (minId : Nat) : SparseSet V :=
  if minId < s.sparse.length then s
  else
    let start := if s.sparse.length = 0 then 1024 else s.sparse.length * 2
    let newLen := growLoop (minId + 1) start minId
    { s with sparse := jsSetLength s.sparse newLen }

/-- `has(id)`: `index !== undefined && this.dense[index] === id`.
(A read `dense[index]` that is out of range or a hole yields
`undefined`, and `undefined === id` is false for a number `id`.) -/
def has (s : SparseSet V) (id : Nat) : Bool :=
  match jsGet s.sparse id with
  | none => false
  | some index => jsGet s.dense index == some id

/-- `get(id)`: the same guard as `has`, returning `data[index]` on
success and `null` (here `none`; the JS `undefined` of a hole is also
`none`) otherwise. -/
def get (s : SparseSet V) (id : Nat) : Option V :=
  match jsGet s.sparse id with
  | none => none
  | some index =>
    if jsGet s.dense index = some id then jsGet s.data index else none

/-- The miss path shared verbatim by `add` and `ensure`:
`index = dense.length; dense[index] = id; data[index] = value;
growSparse(id); sparse[id] = index`. -/
def addNew (s : SparseSet V) (id : Nat) (value : V) : SparseSet V :=
  let index := s.dense.length
  let s1 : SparseSet V :=
    { s with dense := jsWrite s.dense index id, data := jsWrite s.data index value }
  let s2 := growSparse s1 id
  { s2 with sparse := jsWrite s2.sparse id index }

/-- `add(id, value)`: overwrite `data[existing]` when the presence
check passes, otherwise run the miss path; both branches
`return value`, so the returned value is the second component. -/
def add (s : SparseSet V) (id : Nat) (value : V) : SparseSet V × V :=
  match jsGet s.sparse id with
  | some existing =>
    if jsGet s.dense existing = some id then
      ({ s with data := jsWrite s.data existing value }, value)
    else (addNew s id value, value)
  | none => (addNew s id value, value)

/-- `remove(id)`: early return unless present; otherwise swap-remove.
When the guard passes, `dense` is non-empty, so the JS `dense.length - 1`
is the Nat `dense.length - 1`.  `dense[index] = lastId` is a write of the
read value (always defined when the guard passed, but transcribed as the
possibly-undefined read); `sparse[lastId] = index` with an `undefined`
`lastId` would write a non-index property, leaving every integer-indexed
read unchanged, hence the `none` branch leaves `sparse` as is. -/
def remove (s : SparseSet V) (id : Nat) : SparseSet V :=
  match jsGet s.sparse id with
  | none => s
  | some index =>
    if jsGet s.dense index = some id then
      let lastIndex := s.dense.length - 1
      let lastId := jsGet s.dense lastIndex
      let s1 : SparseSet V :=
        if index = lastIndex then s
        else
          { s with
            dense := jsWriteOpt s.dense index lastId,
            data := jsWriteOpt s.data index (jsGet s.data lastIndex),
            sparse :=
              match lastId with
              | some lid => jsWrite s.sparse lid index
              | none => s.sparse }
      { s1 with
        dense := jsPop s1.dense,
        data := jsPop s1.data,
        sparse := jsDelete s1.sparse id }
    else s

/-- `size`: `dense.length`. -/
def size (s : SparseSet V) : Nat :=
  s.dense.length

/-- `clear()`: sets the `length` of all three arrays to 0. -/
def clear (s : SparseSet V) : SparseSet V :=
  { sparse := jsSetLength s.sparse 0,
    dense := jsSetLength s.dense 0,
    data := jsSetLength s.data 0 }

/-- The iterator: for `i` from 0 to `dense.length - 1`, yield the pair
`(dense[i], data[i])` (the `{ id, value }` object). -/
def entries (s : SparseSet V) : List (Option Nat × Option V) :=
  (List.range s.dense.length).map fun i => (jsGet s.dense i, jsGet s.data i)

/-- `ensure(id, factory)`: on the presence check, return `data[index]`
with the state untouched; on a miss, call the factory once and run the
same insertion sequence as `add`'s miss path, returning the new value.
The state is the first component, the returned value the second. -/
def ensure (s : SparseSet V) (id : Nat) (factory : Unit → V) :
    SparseSet V × Option V :=
  match jsGet s.sparse id with
  | some index =>
    if jsGet s.dense index = some id then (s, jsGet s.data index)
    else
      let value := factory ()
      (addNew s id value, some value)
  | none =>
    let value := factory ()
    (addNew s id value, some value)

/-- How many times `ensure(id, factory)` invokes `factory`: the source
calls it exactly once, on the miss branch only.  By construction this
count does not depend on the factory. -/
def ensureCalls (s : SparseSet V) (id : Nat) : Nat :=
  match jsGet s.sparse id with
  | some index => if jsGet s.dense index = some id then 0 else 1
  | none => 1

/-- `tryGetIndex(id)`: the dense index under the presence check, else
`-1`. -/
def tryGetIndex (s : SparseSet V) (id : Nat) : Int :=
  match jsGet s.sparse id with
  | some idx => if jsGet s.dense idx = some id then (idx : Int) else -1
  | none => -1

/-- States reachable from the empty structure by the mutating
operations. -/
inductive Reachable : SparseSet V → Prop
  | empty : Reachable mkEmpty
  | add {s : SparseSet V} (id : Nat) (v : V) : Reachable s → Reachable (s.add id v).1
  | ensure {s : SparseSet V} (id : Nat) (f : Unit → V) :
      Reachable s → Reachable (s.ensure id f).1
  | remove {s : SparseSet V} (id : Nat) : Reachable s → Reachable (s.remove id)
  | clear {s : SparseSet V} : Reachable s → Reachable s.clear

end SparseSet

/-! ### Lemmas about the JS array primitives -/

@[simp]
theorem jsGet_nil (i : Nat) : jsGet ([] : List (Option α)) i = none := by
  simp [jsGet]

theorem jsGet_of_le {l : List (Option α)} {i : Nat} (h : l.length ≤ i) :
    jsGet l i = none := by
  simp [jsGet, List.getElem?_eq_none h]

theorem lt_of_jsGet_eq_some {l : List (Option α)} {i : Nat} {a : α}
    (h : jsGet l i = some a) : i < l.length := by
  by_contra hlt
  rw [jsGet_of_le (Nat.le_of_not_lt hlt)] at h
  exact Option.noConfusion h

@[simp]
theorem length_jsWriteOpt (l : List (Option α)) (i : Nat) (v : Option α) :
    (jsWriteOpt l i v).length = max l.length (i + 1) := by
  unfold jsWriteOpt
  split <;> simp <;> omega

@[simp]
theorem jsGet_jsWriteOpt_self (l : List (Option α)) (i : Nat) (v : Option α) :
    jsGet (jsWriteOpt l i v) i = v := by
  unfold jsWriteOpt jsGet
  split
  · rename_i hlt
    rw [List.getElem?_set, if_pos rfl, if_pos hlt]
    rfl
  · rename_i hlt
    have hle : l.length ≤ i := Nat.le_of_not_lt hlt
    rw [List.append_assoc, List.getElem?_append_right hle,
      List.getElem?_append_right (by simp)]
    simp

theorem jsGet_jsWriteOpt_ne (l : List (Option α)) {i j : Nat} (v : Option α)
    (h : j ≠ i) : jsGet (jsWriteOpt l i v) j = jsGet l j := by
  unfold jsWriteOpt jsGet
  split
  · rw [List.getElem?_set, if_neg (by omega)]
  · rename_i hlt
    have hle : l.length ≤ i := Nat.le_of_not_lt hlt
    rcases Nat.lt_or_ge j l.length with hj | hj
    · rw [List.append_assoc, List.getElem?_append_left hj]
    · rw [List.getElem?_eq_none hj, List.append_assoc,
        List.getElem?_append_right hj]
      rcases Nat.lt_or_ge j i with hji | hji
      · rw [List.getElem?_append_left (by simp; omega), List.getElem?_replicate,
          if_pos (by omega)]
        rfl
      · have hji' : i < j := by omega
        rw [List.getElem?_eq_none (by simp; omega)]

theorem jsWriteOpt_append (l : List (Option α)) (v : Option α) :
    jsWriteOpt l l.length v = l ++ [v] := by
  unfold jsWriteOpt
  simp

@[simp]
theorem length_jsDelete (l : List (Option α)) (i : Nat) :
    (jsDelete l i).length = l.length := by
  unfold jsDelete
  split <;> simp

@[simp]
theorem jsGet_jsDelete_self (l : List (Option α)) (i : Nat) :
    jsGet (jsDelete l i) i = none := by
  unfold jsDelete jsGet
  split
  · simp [List.getElem?_set, *]
  · simp [List.getElem?_eq_none (Nat.le_of_not_lt (by assumption))]

theorem jsGet_jsDelete_ne (l : List (Option α)) {i j : Nat} (h : j ≠ i) :
    jsGet (jsDelete l i) j = jsGet l j := by
  unfold jsDelete jsGet
  split
  · rw [List.getElem?_set, if_neg (by omega)]
  · rfl

@[simp]
theorem length_jsSetLength (l : List (Option α)) (n : Nat) :
    (jsSetLength l n).length = n := by
  unfold jsSetLength
  split <;> simp <;> omega

theorem jsGet_jsSetLength_of_le {l : List (Option α)} {n : Nat}
    (h : l.length ≤ n) (j : Nat) : jsGet (jsSetLength l n) j = jsGet l j := by
  unfold jsSetLength jsGet
  rcases Nat.eq_or_lt_of_le h with h' | h'
  · simp [h'.symm]
  · rw [if_neg (by omega)]
    rcases Nat.lt_or_ge j l.length with hj | hj
    · rw [List.getElem?_append_left hj]
    · rw [List.getElem?_append_right hj, List.getElem?_eq_none hj]
      simp [List.getElem?_replicate]

@[simp]
theorem jsSetLength_zero (l : List (Option α)) : jsSetLength l 0 = [] := by
  unfold jsSetLength
  simp

@[simp]
theorem length_jsPop (l : List (Option α)) : (jsPop l).length = l.length - 1 := by
  simp [jsPop]

theorem jsGet_jsPop (l : List (Option α)) (j : Nat) :
    jsGet (jsPop l) j = if j < l.length - 1 then jsGet l j else none := by
  unfold jsPop jsGet
  rw [List.getElem?_dropLast]
  split <;> simp

theorem jsGet_append_singleton (l : List (Option α)) (v : Option α) (j : Nat) :
    jsGet (l ++ [v]) j = if j = l.length then v else jsGet l j := by
  unfold jsGet
  rcases Nat.lt_or_ge j l.length with hj | hj
  · rw [List.getElem?_append_left hj, if_neg (by omega)]
  · rcases Nat.eq_or_lt_of_le hj with h' | h'
    · rw [List.getElem?_append_right hj]
      simp [h'.symm]
    · rw [List.getElem?_append_right hj, if_neg (by omega),
        List.getElem?_eq_none hj, List.getElem?_eq_none (by simp; omega)]

theorem jsGet_jsWrite_self (l : List (Option α)) (i : Nat) (v : α) :
    jsGet (jsWrite l i v) i = some v :=
  jsGet_jsWriteOpt_self l i (some v)

theorem jsGet_jsWrite_ne (l : List (Option α)) {i j : Nat} (v : α)
    (h : j ≠ i) : jsGet (jsWrite l i v) j = jsGet l j :=
  jsGet_jsWriteOpt_ne l (some v) h

theorem length_jsWrite_ge (l : List (Option α)) (i : Nat) (v : α) :
    l.length ≤ (jsWrite l i v).length := by
  unfold jsWrite
  rw [length_jsWriteOpt]
  omega

/-! ### Presence, and case characterizations of the operations -/

namespace SparseSet

variable {V : Type u}

/-- The spec's presence invariant for `id`, with the explicit
`0 ≤ i < len(dense)` bounds requirement spelled out. -/
def Present (s : SparseSet V) (id : Nat) : Prop :=
  ∃ i, jsGet s.sparse id = some i ∧ i < s.dense.length ∧ jsGet s.dense i = some id

theorem has_eq_true_iff (s : SparseSet V) (id : Nat) :
    s.has id = true ↔ Present s id := by
  unfold has Present
  cases hs : jsGet s.sparse id with
  | none =>
    simp only [Bool.false_eq_true, false_iff]
    rintro ⟨i, hi, -, -⟩
    exact Option.noConfusion hi
  | some i =>
    simp only [beq_iff_eq]
    constructor
    · intro hd
      exact ⟨i, rfl, lt_of_jsGet_eq_some hd, hd⟩
    · rintro ⟨j, hj, -, hd⟩
      cases hj
      exact hd

theorem has_eq_false_iff (s : SparseSet V) (id : Nat) :
    s.has id = false ↔ ¬ Present s id := by
  rw [← has_eq_true_iff]
  cases s.has id <;> simp

theorem get_of_present {s : SparseSet V} {id i : Nat}
    (h1 : jsGet s.sparse id = some i) (h2 : jsGet s.dense i = some id) :
    s.get id = jsGet s.data i := by
  unfold get
  rw [h1]
  dsimp only
  rw [if_pos h2]

theorem get_of_has_false {s : SparseSet V} {id : Nat} (h : s.has id = false) :
    s.get id = none := by
  unfold has at h
  unfold get
  cases hs : jsGet s.sparse id with
  | none => rfl
  | some i =>
    rw [hs] at h
    dsimp only at h ⊢
    rw [if_neg (by simpa using h)]

theorem has_of_le_sparse {s : SparseSet V} {id : Nat}
    (h : s.sparse.length ≤ id) : s.has id = false := by
  unfold has
  rw [jsGet_of_le h]

/-! growth -/

theorem growLoop_le (fuel m : Nat) : ∀ n, n ≤ growLoop fuel n m := by
  induction fuel with
  | zero => intro n; exact Nat.le_refl n
  | succ fuel ih =>
    intro n
    unfold growLoop
    split
    · exact Nat.le_trans (by omega) (ih (n * 2))
    · exact Nat.le_refl n

theorem growLoop_gt {m : Nat} (fuel : Nat) :
    ∀ {n : Nat}, 0 < n → m < n * 2 ^ fuel → m < growLoop fuel n m := by
  induction fuel with
  | zero => intro n _ h; simpa using h
  | succ fuel ih =>
    intro n hn h
    unfold growLoop
    split
    · refine ih (by omega) ?_
      have he : n * 2 ^ (fuel + 1) = n * 2 * 2 ^ fuel := by ring
      omega
    · omega

/-- The fuel `minId + 1` that `growSparse` passes to `growLoop` always
lets the source's `while` loop run to completion: the result exceeds
`minId` whenever the starting capacity is positive. -/
theorem growLoop_fuel_adequate {n m : Nat} (hn : 0 < n) :
    m < growLoop (m + 1) n m := by
  refine growLoop_gt (m + 1) hn ?_
  calc m < 2 ^ m := Nat.lt_two_pow m
    _ ≤ 2 ^ (m + 1) := Nat.pow_le_pow_right (by omega) (by omega)
    _ ≤ n * 2 ^ (m + 1) := Nat.le_mul_of_pos_left _ hn

@[simp]
theorem growSparse_dense (s : SparseSet V) (m : Nat) :
    (s.growSparse m).dense = s.dense := by
  unfold growSparse
  split <;> rfl

@[simp]
theorem growSparse_data (s : SparseSet V) (m : Nat) :
    (s.growSparse m).data = s.data := by
  unfold growSparse
  split <;> rfl

theorem sparse_length_le_growSparse (s : SparseSet V) (m : Nat) :
    s.sparse.length ≤ (s.growSparse m).sparse.length := by
  simp only [growSparse]
  split
  · exact Nat.le_refl _
  · simp only [length_jsSetLength]
    exact Nat.le_trans (by split <;> omega) (growLoop_le _ _ _)

theorem jsGet_growSparse (s : SparseSet V) (m j : Nat) :
    jsGet (s.growSparse m).sparse j = jsGet s.sparse j := by
  simp only [growSparse]
  split
  · rfl
  · exact jsGet_jsSetLength_of_le
      (Nat.le_trans (by split <;> omega) (growLoop_le _ _ _)) j

/-! the miss path -/

theorem addNew_dense (s : SparseSet V) (id : Nat) (v : V) :
    (s.addNew id v).dense = s.dense ++ [some id] := by
  simp only [addNew, growSparse_dense, jsWrite]
  exact jsWriteOpt_append _ _

theorem addNew_data (s : SparseSet V) (id : Nat) (v : V) :
    (s.addNew id v).data = jsWrite s.data s.dense.length v := by
  simp only [addNew, growSparse_data]

theorem jsGet_addNew_sparse_self (s : SparseSet V) (id : Nat) (v : V) :
    jsGet (s.addNew id v).sparse id = some s.dense.length := by
  simp only [addNew]
  exact jsGet_jsWrite_self _ _ _

theorem jsGet_addNew_sparse_ne (s : SparseSet V) {id j : Nat} (v : V)
    (h : j ≠ id) : jsGet (s.addNew id v).sparse j = jsGet s.sparse j := by
  simp only [addNew]
  rw [jsGet_jsWrite_ne _ _ h]
  exact jsGet_growSparse _ _ _

theorem sparse_length_le_addNew (s : SparseSet V) (id : Nat) (v : V) :
    s.sparse.length ≤ (s.addNew id v).sparse.length := by
  simp only [addNew]
  refine Nat.le_trans ?_ (length_jsWrite_ge _ _ _)
  exact sparse_length_le_growSparse
    { s with dense := jsWrite s.dense s.dense.length id,
             data := jsWrite s.data s.dense.length v } id

/-! `add` branch characterizations -/

theorem add_of_present {s : SparseSet V} {id i : Nat} (v : V)
    (h1 : jsGet s.sparse id = some i) (h2 : jsGet s.dense i = some id) :
    s.add id v = ({ s with data := jsWrite s.data i v }, v) := by
  unfold add
  rw [h1]
  dsimp only
  rw [if_pos h2]

theorem add_of_absent {s : SparseSet V} {id : Nat} (v : V)
    (h : s.has id = false) : s.add id v = (s.addNew id v, v) := by
  unfold has at h
  unfold add
  cases hs : jsGet s.sparse id with
  | none => rfl
  | some i =>
    rw [hs] at h
    dsimp only at h ⊢
    rw [if_neg (by simpa using h)]

/-! `ensure` branch characterizations -/

theorem ensure_of_present {s : SparseSet V} {id i : Nat} (f : Unit → V)
    (h1 : jsGet s.sparse id = some i) (h2 : jsGet s.dense i = some id) :
    s.ensure id f = (s, jsGet s.data i) := by
  unfold ensure
  rw [h1]
  dsimp only
  rw [if_pos h2]

theorem ensure_of_absent {s : SparseSet V} {id : Nat} (f : Unit → V)
    (h : s.has id = false) : s.ensure id f = (s.addNew id (f ()), some (f ())) := by
  unfold has at h
  unfold ensure
  cases hs : jsGet s.sparse id with
  | none => rfl
  | some i =>
    rw [hs] at h
    dsimp only at h ⊢
    rw [if_neg (by simpa using h)]

theorem ensureCalls_of_present {s : SparseSet V} {id i : Nat}
    (h1 : jsGet s.sparse id = some i) (h2 : jsGet s.dense i = some id) :
    s.ensureCalls id = 0 := by
  unfold ensureCalls
  rw [h1]
  dsimp only
  rw [if_pos h2]

theorem ensureCalls_of_absent {s : SparseSet V} {id : Nat}
    (h : s.has id = false) : s.ensureCalls id = 1 := by
  unfold has at h
  unfold ensureCalls
  cases hs : jsGet s.sparse id with
  | none => rfl
  | some i =>
    rw [hs] at h
    dsimp only at h ⊢
    rw [if_neg (by simpa using h)]

/-! `remove` branch characterizations -/

theorem remove_of_absent {s : SparseSet V} {id : Nat}
    (h : s.has id = false) : s.remove id = s := by
  unfold has at h
  unfold remove
  cases hs : jsGet s.sparse id with
  | none => rfl
  | some i =>
    rw [hs] at h
    dsimp only at h ⊢
    rw [if_neg (by simpa using h)]

theorem remove_of_present_last {s : SparseSet V} {id i : Nat}
    (h1 : jsGet s.sparse id = some i) (h2 : jsGet s.dense i = some id)
    (hl : i = s.dense.length - 1) :
    s.remove id =
      { sparse := jsDelete s.sparse id, dense := jsPop s.dense,
        data := jsPop s.data } := by
  unfold remove
  rw [h1]
  dsimp only
  rw [if_pos h2]
  rw [if_pos hl]

theorem remove_of_present_swap {s : SparseSet V} {id i : Nat}
    (h1 : jsGet s.sparse id = some i) (h2 : jsGet s.dense i = some id)
    (hl : i ≠ s.dense.length - 1) {lid : Nat}
    (hlast : jsGet s.dense (s.dense.length - 1) = some lid) :
    s.remove id =
      { sparse := jsDelete (jsWrite s.sparse lid i) id,
        dense := jsPop (jsWriteOpt s.dense i (some lid)),
        data := jsPop (jsWriteOpt s.data i (jsGet s.data (s.dense.length - 1))) } := by
  unfold remove
  rw [h1]
  dsimp only
  rw [if_pos h2]
  rw [if_neg hl, hlast]

/-! helpers reducing the operations on explicit records -/

theorem get_mk (sp de : List (Option Nat)) (da : List (Option V)) (id : Nat) :
    get ⟨sp, de, da⟩ id =
      (match jsGet sp id with
       | none => none
       | some k => if jsGet de k = some id then jsGet da k else none) := rfl

theorem has_mk (sp de : List (Option Nat)) (da : List (Option V)) (id : Nat) :
    has ⟨sp, de, da⟩ id =
      (match jsGet sp id with
       | none => false
       | some k => jsGet de k == some id) := rfl

theorem tryGetIndex_of_present {s : SparseSet V} {id i : Nat}
    (h1 : jsGet s.sparse id = some i) (h2 : jsGet s.dense i = some id) :
    s.tryGetIndex id = (i : Int) := by
  unfold tryGetIndex
  rw [h1]
  dsimp only
  rw [if_pos h2]

theorem tryGetIndex_of_has_false {s : SparseSet V} {id : Nat}
    (h : s.has id = false) : s.tryGetIndex id = -1 := by
  unfold has at h
  unfold tryGetIndex
  cases hs : jsGet s.sparse id with
  | none => rfl
  | some i =>
    rw [hs] at h
    dsimp only at h ⊢
    rw [if_neg (by simpa using h)]

/-! ### Observable effects of `add` and `ensure` -/

theorem has_add_self (s : SparseSet V) (id : Nat) (v : V) :
    (s.add id v).1.has id = true := by
  rw [has_eq_true_iff]
  cases hhas : s.has id with
  | true =>
    obtain ⟨i, h1, hlt, h2⟩ := (has_eq_true_iff s id).1 hhas
    rw [add_of_present v h1 h2]
    exact ⟨i, h1, hlt, h2⟩
  | false =>
    rw [add_of_absent v hhas]
    refine ⟨s.dense.length, jsGet_addNew_sparse_self s id v, ?_, ?_⟩
    · rw [addNew_dense]
      simp
    · rw [addNew_dense, jsGet_append_singleton, if_pos rfl]

theorem jsGet_addNew_dense_self (s : SparseSet V) (id : Nat) (v : V) :
    jsGet (s.addNew id v).dense s.dense.length = some id := by
  rw [addNew_dense, jsGet_append_singleton, if_pos rfl]

theorem jsGet_addNew_data_self (s : SparseSet V) (id : Nat) (v : V) :
    jsGet (s.addNew id v).data s.dense.length = some v := by
  rw [addNew_data]
  exact jsGet_jsWrite_self _ _ _

theorem get_add_self (s : SparseSet V) (id : Nat) (v : V) :
    (s.add id v).1.get id = some v := by
  cases hhas : s.has id with
  | true =>
    obtain ⟨i, h1, hlt, h2⟩ := (has_eq_true_iff s id).1 hhas
    rw [add_of_present v h1 h2]
    dsimp only
    rw [get_mk, h1]
    dsimp only
    rw [if_pos h2]
    exact jsGet_jsWrite_self s.data i v
  | false =>
    rw [add_of_absent v hhas]
    dsimp only
    rw [get_of_present (jsGet_addNew_sparse_self s id v) (jsGet_addNew_dense_self s id v)]
    exact jsGet_addNew_data_self s id v

theorem size_add_present {s : SparseSet V} {id i : Nat} (v : V)
    (h1 : jsGet s.sparse id = some i) (h2 : jsGet s.dense i = some id) :
    (s.add id v).1.size = s.size := by
  rw [add_of_present v h1 h2]
  rfl

theorem add_present_frame {s : SparseSet V} {id i : Nat} (v : V)
    (h1 : jsGet s.sparse id = some i) (h2 : jsGet s.dense i = some id)
    {j : Nat} (hj : j ≠ id) :
    (s.add id v).1.has j = s.has j ∧ (s.add id v).1.get j = s.get j ∧
    (s.add id v).1.tryGetIndex j = s.tryGetIndex j := by
  rw [add_of_present v h1 h2]
  refine ⟨rfl, ?_, rfl⟩
  dsimp only
  rw [get_mk]
  unfold get
  cases hs : jsGet s.sparse j with
  | none => rfl
  | some k =>
    dsimp only
    by_cases hd : jsGet s.dense k = some j
    · rw [if_pos hd, if_pos hd]
      have hki : k ≠ i := by
        intro he
        subst he
        rw [h2] at hd
        injection hd with hd2
        exact hj hd2.symm
      exact jsGet_jsWrite_ne _ _ hki
    · rw [if_neg hd, if_neg hd]

theorem ensure_hit (s : SparseSet V) (id : Nat) (f g : Unit → V)
    (h : s.has id = true) :
    s.ensure id f = (s, s.get id) ∧ s.ensure id f = s.ensure id g ∧
    s.ensureCalls id = 0 := by
  obtain ⟨i, h1, hlt, h2⟩ := (has_eq_true_iff s id).1 h
  rw [ensure_of_present f h1 h2, ensure_of_present g h1 h2,
    get_of_present h1 h2, ensureCalls_of_present h1 h2]
  exact ⟨rfl, rfl, rfl⟩

theorem ensure_miss (s : SparseSet V) (id : Nat) (f : Unit → V)
    (h : s.has id = false) :
    s.ensure id f = ((s.add id (f ())).1, some (f ())) ∧ s.ensureCalls id = 1 := by
  rw [ensure_of_absent f h, add_of_absent (f ()) h, ensureCalls_of_absent h]
  exact ⟨rfl, rfl⟩

theorem ensure_after_add (s : SparseSet V) (id : Nat) (v : V) (f : Unit → V) :
    (s.add id v).1.ensure id f = ((s.add id v).1, some v) ∧
    (s.add id v).1.ensureCalls id = 0 := by
  obtain ⟨i, h1, hlt, h2⟩ := (has_eq_true_iff _ id).1 (has_add_self s id v)
  have hg := get_of_present h1 h2
  rw [get_add_self] at hg
  rw [ensure_of_present f h1 h2, ← hg]
  exact ⟨rfl, ensureCalls_of_present h1 h2⟩

/-! ### The well-formedness invariant of reachable states -/

/-- Slot `i` of `dense` holds an identifier whose `sparse` entry points
back to `i`, and the parallel `data` slot is filled. -/
def wfAt (s : SparseSet V) (i : Nat) : Bool :=
  (match jsGet s.dense i with
   | some id => jsGet s.sparse id == some i
   | none => false) && (jsGet s.data i).isSome

theorem wfAt_iff (s : SparseSet V) (i : Nat) :
    wfAt s i = true ↔
      (∃ id, jsGet s.dense i = some id ∧ jsGet s.sparse id = some i) ∧
      (jsGet s.data i).isSome = true := by
  unfold wfAt
  cases hd : jsGet s.dense i with
  | none => simp
  | some id0 => simp

/-- The invariant every reachable state satisfies: `data` and `dense`
are parallel, and every dense slot is well formed. -/
def Wf (s : SparseSet V) : Prop :=
  s.data.length = s.dense.length ∧ ∀ i, i < s.dense.length → wfAt s i = true

instance (s : SparseSet V) : Decidable (Wf s) := by
  unfold Wf
  infer_instance

theorem Wf.dense_back {s : SparseSet V} (h : Wf s) {i : Nat}
    (hi : i < s.dense.length) :
    ∃ id, jsGet s.dense i = some id ∧ jsGet s.sparse id = some i :=
  ((wfAt_iff s i).1 (h.2 i hi)).1

theorem Wf.data_isSome {s : SparseSet V} (h : Wf s) {i : Nat}
    (hi : i < s.dense.length) : (jsGet s.data i).isSome = true :=
  ((wfAt_iff s i).1 (h.2 i hi)).2

theorem Wf.back_of_dense {s : SparseSet V} (h : Wf s) {i id : Nat}
    (hd : jsGet s.dense i = some id) : jsGet s.sparse id = some i := by
  obtain ⟨id2, hd2, hs2⟩ := h.dense_back (lt_of_jsGet_eq_some hd)
  rw [hd] at hd2
  cases hd2
  exact hs2

theorem Wf.dense_inj {s : SparseSet V} (h : Wf s) {i j id : Nat}
    (hi : jsGet s.dense i = some id) (hj : jsGet s.dense j = some id) :
    i = j := by
  have h1 := h.back_of_dense hi
  have h2 := h.back_of_dense hj
  rw [h1] at h2
  injection h2

theorem wf_mkEmpty : Wf (mkEmpty : SparseSet V) := by
  constructor
  · rfl
  · intro i hi
    exact absurd hi (by simp [mkEmpty])

theorem wf_addNew {s : SparseSet V} {id : Nat} (v : V) (hw : Wf s)
    (habs : s.has id = false) : Wf (s.addNew id v) := by
  obtain ⟨hlen, hslots⟩ := hw
  have hlen2 : (s.addNew id v).data.length = s.dense.length + 1 := by
    rw [addNew_data]
    unfold jsWrite
    rw [length_jsWriteOpt]
    omega
  have hlen1 : (s.addNew id v).dense.length = s.dense.length + 1 := by
    rw [addNew_dense]
    simp
  constructor
  · rw [hlen1, hlen2]
  · intro k hk
    rw [hlen1] at hk
    rw [wfAt_iff]
    rcases Nat.lt_or_ge k s.dense.length with hks | hks
    · have hne : k ≠ s.dense.length := by omega
      have hdk : jsGet (s.addNew id v).dense k = jsGet s.dense k := by
        rw [addNew_dense, jsGet_append_singleton, if_neg hne]
      obtain ⟨⟨idk, hidk, hback⟩, hdata⟩ := (wfAt_iff s k).1 (hslots k hks)
      have hidk_ne : idk ≠ id := by
        intro he
        subst he
        exact (has_eq_false_iff s idk).1 habs
          ⟨k, hback, hks, hidk⟩
      refine ⟨⟨idk, ?_, ?_⟩, ?_⟩
      · rw [hdk]
        exact hidk
      · rw [jsGet_addNew_sparse_ne s v hidk_ne]
        exact hback
      · rw [addNew_data, jsGet_jsWrite_ne _ _ (by omega : k ≠ s.dense.length)]
        exact hdata
    · have hke : k = s.dense.length := by omega
      subst hke
      refine ⟨⟨id, jsGet_addNew_dense_self s id v, jsGet_addNew_sparse_self s id v⟩, ?_⟩
      rw [jsGet_addNew_data_self]
      rfl

theorem wf_add {s : SparseSet V} (id : Nat) (v : V) (hw : Wf s) :
    Wf (s.add id v).1 := by
  cases hhas : s.has id with
  | false =>
    rw [add_of_absent v hhas]
    exact wf_addNew v hw hhas
  | true =>
    obtain ⟨i, h1, hlt, h2⟩ := (has_eq_true_iff s id).1 hhas
    rw [add_of_present v h1 h2]
    obtain ⟨hlen, hslots⟩ := hw
    constructor
    · show (jsWrite s.data i v).length = s.dense.length
      unfold jsWrite
      rw [length_jsWriteOpt]
      omega
    · intro k hk
      show wfAt ⟨s.sparse, s.dense, jsWrite s.data i v⟩ k = true
      rw [wfAt_iff]
      have hold := (wfAt_iff s k).1 (hslots k hk)
      refine ⟨hold.1, ?_⟩
      show (jsGet (jsWrite s.data i v) k).isSome = true
      by_cases hki : k = i
      · subst hki
        rw [jsGet_jsWrite_self]
        rfl
      · rw [jsGet_jsWrite_ne _ _ hki]
        exact hold.2

theorem wf_ensure {s : SparseSet V} (id : Nat) (f : Unit → V) (hw : Wf s) :
    Wf (s.ensure id f).1 := by
  cases hhas : s.has id with
  | false =>
    rw [ensure_of_absent f hhas]
    exact wf_addNew (f ()) hw hhas
  | true =>
    obtain ⟨i, h1, hlt, h2⟩ := (has_eq_true_iff s id).1 hhas
    rw [ensure_of_present f h1 h2]
    exact hw

theorem clear_eq_mkEmpty (s : SparseSet V) : s.clear = mkEmpty := by
  unfold clear mkEmpty
  rw [jsSetLength_zero, jsSetLength_zero, jsSetLength_zero]

theorem wf_clear (s : SparseSet V) : Wf s.clear := by
  rw [clear_eq_mkEmpty]
  exact wf_mkEmpty

theorem wf_remove {s : SparseSet V} (id : Nat) (hw : Wf s) :
    Wf (s.remove id) := by
  cases hhas : s.has id with
  | false =>
    rw [remove_of_absent hhas]
    exact hw
  | true =>
    obtain ⟨i, h1, hlt, h2⟩ := (has_eq_true_iff s id).1 hhas
    have hdl : s.data.length = s.dense.length := hw.1
    have hn1 : s.dense.length - 1 < s.dense.length := by omega
    by_cases hil : i = s.dense.length - 1
    · rw [remove_of_present_last h1 h2 hil]
      constructor
      · show (jsPop s.data).length = (jsPop s.dense).length
        rw [length_jsPop, length_jsPop, hw.1]
      · intro k hk
        have hk1 : k < s.dense.length - 1 := by
          simpa using hk
        rw [wfAt_iff]
        obtain ⟨idk, hidk, hback⟩ := hw.dense_back (by omega : k < s.dense.length)
        have hidk_ne : idk ≠ id := by
          intro he
          subst he
          have := hw.dense_inj hidk h2
          omega
        refine ⟨⟨idk, ?_, ?_⟩, ?_⟩
        · show jsGet (jsPop s.dense) k = some idk
          rw [jsGet_jsPop, if_pos hk1]
          exact hidk
        · show jsGet (jsDelete s.sparse id) idk = some k
          rw [jsGet_jsDelete_ne _ hidk_ne]
          exact hback
        · show (jsGet (jsPop s.data) k).isSome = true
          rw [jsGet_jsPop, if_pos (by omega : k < s.data.length - 1)]
          exact hw.data_isSome (by omega)
    · obtain ⟨lid, hlid_dense, hlid_back⟩ := hw.dense_back hn1
      have hlid_ne : lid ≠ id := by
        intro he
        subst he
        rw [h1] at hlid_back
        injection hlid_back with he2
        exact hil he2
      have hi_lt : i < s.dense.length - 1 := by omega
      rw [remove_of_present_swap h1 h2 hil hlid_dense]
      have hlen_dense : (jsWriteOpt s.dense i (some lid)).length = s.dense.length := by
        rw [length_jsWriteOpt]
        omega
      have hlen_data :
          (jsWriteOpt s.data i (jsGet s.data (s.dense.length - 1))).length =
            s.dense.length := by
        rw [length_jsWriteOpt]
        omega
      constructor
      · show (jsPop (jsWriteOpt s.data i _)).length = (jsPop (jsWriteOpt s.dense i _)).length
        rw [length_jsPop, length_jsPop, hlen_dense, hlen_data]
      · intro k hk
        have hk1 : k < s.dense.length - 1 := by
          have : k < (jsPop (jsWriteOpt s.dense i (some lid))).length := hk
          rw [length_jsPop, hlen_dense] at this
          exact this
        rw [wfAt_iff]
        by_cases hki : k = i
        · subst hki
          refine ⟨⟨lid, ?_, ?_⟩, ?_⟩
          · show jsGet (jsPop (jsWriteOpt s.dense k (some lid))) k = some lid
            rw [jsGet_jsPop, hlen_dense, if_pos hk1]
            exact jsGet_jsWriteOpt_self _ _ _
          · show jsGet (jsDelete (jsWrite s.sparse lid k) id) lid = some k
            rw [jsGet_jsDelete_ne _ hlid_ne]
            exact jsGet_jsWrite_self _ _ _
          · show (jsGet (jsPop (jsWriteOpt s.data k _)) k).isSome = true
            rw [jsGet_jsPop, hlen_data, if_pos hk1, jsGet_jsWriteOpt_self]
            exact hw.data_isSome hn1
        · obtain ⟨idk, hidk, hback⟩ := hw.dense_back (by omega : k < s.dense.length)
          have hidk_ne_id : idk ≠ id := by
            intro he
            subst he
            exact hki (hw.dense_inj hidk h2)
          have hidk_ne_lid : idk ≠ lid := by
            intro he
            subst he
            have := hw.dense_inj hidk hlid_dense
            omega
          refine ⟨⟨idk, ?_, ?_⟩, ?_⟩
          · show jsGet (jsPop (jsWriteOpt s.dense i (some lid))) k = some idk
            rw [jsGet_jsPop, hlen_dense, if_pos hk1, jsGet_jsWriteOpt_ne _ _ hki]
            exact hidk
          · show jsGet (jsDelete (jsWrite s.sparse lid i) id) idk = some k
            rw [jsGet_jsDelete_ne _ hidk_ne_id, jsGet_jsWrite_ne _ _ hidk_ne_lid]
            exact hback
          · show (jsGet (jsPop (jsWriteOpt s.data i _)) k).isSome = true
            rw [jsGet_jsPop, hlen_data, if_pos hk1, jsGet_jsWriteOpt_ne _ _ hki]
            exact hw.data_isSome (by omega)

theorem reachable_wf {s : SparseSet V} (h : Reachable s) : Wf s := by
  induction h with
  | empty => exact wf_mkEmpty
  | add id v _ ih => exact wf_add id v ih
  | ensure id f _ ih => exact wf_ensure id f ih
  | remove id _ ih => exact wf_remove id ih
  | clear _ ih => exact wf_clear _

/-! ### Observable effects of `remove` -/

/-- The swap branch when the read of the last dense slot is a hole
(unreachable from well-formed states, but part of the total
transcription). -/
theorem remove_of_present_swap_none {s : SparseSet V} {id i : Nat}
    (h1 : jsGet s.sparse id = some i) (h2 : jsGet s.dense i = some id)
    (hl : i ≠ s.dense.length - 1)
    (hlast : jsGet s.dense (s.dense.length - 1) = none) :
    s.remove id =
      { sparse := jsDelete s.sparse id,
        dense := jsPop (jsWriteOpt s.dense i none),
        data := jsPop (jsWriteOpt s.data i (jsGet s.data (s.dense.length - 1))) } := by
  unfold remove
  rw [h1]
  dsimp only
  rw [if_pos h2]
  rw [if_neg hl, hlast]

theorem size_remove_present {s : SparseSet V} {id i : Nat} (hw : Wf s)
    (h1 : jsGet s.sparse id = some i) (h2 : jsGet s.dense i = some id) :
    (s.remove id).size = s.size - 1 ∧ (s.remove id).data.length = s.data.length - 1 := by
  have hlt : i < s.dense.length := lt_of_jsGet_eq_some h2
  have hdl : s.data.length = s.dense.length := hw.1
  by_cases hil : i = s.dense.length - 1
  · rw [remove_of_present_last h1 h2 hil]
    constructor
    · show (jsPop s.dense).length = s.dense.length - 1
      rw [length_jsPop]
    · show (jsPop s.data).length = s.data.length - 1
      rw [length_jsPop]
  · obtain ⟨lid, hlid_dense, -⟩ :=
      hw.dense_back (by omega : s.dense.length - 1 < s.dense.length)
    rw [remove_of_present_swap h1 h2 hil hlid_dense]
    constructor
    · show (jsPop (jsWriteOpt s.dense i (some lid))).length = s.dense.length - 1
      rw [length_jsPop, length_jsWriteOpt]
      omega
    · show (jsPop (jsWriteOpt s.data i _)).length = s.data.length - 1
      rw [length_jsPop, length_jsWriteOpt]
      omega

theorem has_remove_self {s : SparseSet V} {id i : Nat} (hw : Wf s)
    (h1 : jsGet s.sparse id = some i) (h2 : jsGet s.dense i = some id) :
    (s.remove id).has id = false := by
  have hlt : i < s.dense.length := lt_of_jsGet_eq_some h2
  by_cases hil : i = s.dense.length - 1
  · rw [remove_of_present_last h1 h2 hil, has_mk, jsGet_jsDelete_self]
  · obtain ⟨lid, hlid_dense, -⟩ :=
      hw.dense_back (by omega : s.dense.length - 1 < s.dense.length)
    rw [remove_of_present_swap h1 h2 hil hlid_dense, has_mk, jsGet_jsDelete_self]

theorem remove_present_moved {s : SparseSet V} {id i : Nat} (hw : Wf s)
    (h1 : jsGet s.sparse id = some i) (h2 : jsGet s.dense i = some id)
    (hil : i ≠ s.dense.length - 1) {lid : Nat}
    (hlast : jsGet s.dense (s.dense.length - 1) = some lid) :
    jsGet (s.remove id).dense i = some lid ∧
    jsGet (s.remove id).data i = jsGet s.data (s.dense.length - 1) ∧
    jsGet (s.remove id).sparse lid = some i := by
  have hlt : i < s.dense.length := lt_of_jsGet_eq_some h2
  have hdl : s.data.length = s.dense.length := hw.1
  have hi1 : i < s.dense.length - 1 := by omega
  have hlid_ne : lid ≠ id := by
    intro he
    subst he
    rw [hw.back_of_dense hlast] at h1
    injection h1 with h1e
    exact hil h1e.symm
  rw [remove_of_present_swap h1 h2 hil hlast]
  refine ⟨?_, ?_, ?_⟩
  · show jsGet (jsPop (jsWriteOpt s.dense i (some lid))) i = some lid
    rw [jsGet_jsPop, length_jsWriteOpt, if_pos (by omega)]
    exact jsGet_jsWriteOpt_self _ _ _
  · show jsGet (jsPop (jsWriteOpt s.data i _)) i = jsGet s.data (s.dense.length - 1)
    rw [jsGet_jsPop, length_jsWriteOpt, if_pos (by omega)]
    exact jsGet_jsWriteOpt_self _ _ _
  · show jsGet (jsDelete (jsWrite s.sparse lid i) id) lid = some i
    rw [jsGet_jsDelete_ne _ hlid_ne]
    exact jsGet_jsWrite_self _ _ _

theorem remove_present_frame {s : SparseSet V} {id i : Nat} (hw : Wf s)
    (h1 : jsGet s.sparse id = some i) (h2 : jsGet s.dense i = some id)
    {j : Nat} (hj : j ≠ id) :
    (s.remove id).has j = s.has j ∧ (s.remove id).get j = s.get j := by
  have hlt : i < s.dense.length := lt_of_jsGet_eq_some h2
  have hdl : s.data.length = s.dense.length := hw.1
  by_cases hil : i = s.dense.length - 1
  · rw [remove_of_present_last h1 h2 hil, has_mk, get_mk,
      jsGet_jsDelete_ne _ hj]
    unfold has get
    cases hs : jsGet s.sparse j with
    | none => exact ⟨rfl, rfl⟩
    | some k =>
      dsimp only
      by_cases hd : jsGet s.dense k = some j
      · have hki : k ≠ i := by
          intro he
          subst he
          rw [h2] at hd
          injection hd with hd2
          exact hj hd2.symm
        have hklt : k < s.dense.length := lt_of_jsGet_eq_some hd
        have hk1 : k < s.dense.length - 1 := by omega
        have hde : jsGet (jsPop s.dense) k = jsGet s.dense k := by
          rw [jsGet_jsPop, if_pos hk1]
        have hda : jsGet (jsPop s.data) k = jsGet s.data k := by
          rw [jsGet_jsPop, if_pos (by omega : k < s.data.length - 1)]
        rw [hde, hda]
        exact ⟨rfl, rfl⟩
      · have hne : jsGet (jsPop s.dense) k ≠ some j := by
          rw [jsGet_jsPop]
          split
          · exact hd
          · exact fun he => Option.noConfusion he
        constructor
        · have e1 : (jsGet (jsPop s.dense) k == some j) = false := by
            rw [beq_eq_false_iff_ne]
            exact hne
          have e2 : (jsGet s.dense k == some j) = false := by
            rw [beq_eq_false_iff_ne]
            exact hd
          rw [e1, e2]
        · rw [if_neg hne, if_neg hd]
  · obtain ⟨lid, hlid_dense, hlid_back⟩ :=
      hw.dense_back (by omega : s.dense.length - 1 < s.dense.length)
    have hi1 : i < s.dense.length - 1 := by omega
    have hlid_ne : lid ≠ id := by
      intro he
      subst he
      rw [hlid_back] at h1
      injection h1 with h1e
      exact hil h1e.symm
    rw [remove_of_present_swap h1 h2 hil hlid_dense, has_mk, get_mk,
      jsGet_jsDelete_ne _ hj]
    have hlen_dense : (jsWriteOpt s.dense i (some lid)).length = s.dense.length := by
      rw [length_jsWriteOpt]
      omega
    have hlen_data :
        (jsWriteOpt s.data i (jsGet s.data (s.dense.length - 1))).length =
          s.data.length := by
      rw [length_jsWriteOpt]
      omega
    by_cases hjl : j = lid
    · subst hjl
      rw [jsGet_jsWrite_self]
      unfold has get
      rw [hlid_back]
      dsimp only
      have hdense_i : jsGet (jsPop (jsWriteOpt s.dense i (some j))) i = some j := by
        rw [jsGet_jsPop, hlen_dense, if_pos hi1]
        exact jsGet_jsWriteOpt_self _ _ _
      have hdata_i :
          jsGet (jsPop (jsWriteOpt s.data i (jsGet s.data (s.dense.length - 1)))) i =
            jsGet s.data (s.dense.length - 1) := by
        rw [jsGet_jsPop, hlen_data, if_pos (by omega : i < s.data.length - 1)]
        exact jsGet_jsWriteOpt_self _ _ _
      rw [hdense_i, hdata_i, hlid_dense]
      exact ⟨rfl, rfl⟩
    · rw [jsGet_jsWrite_ne _ _ hjl]
      unfold has get
      cases hs : jsGet s.sparse j with
      | none => exact ⟨rfl, rfl⟩
      | some k =>
        dsimp only
        by_cases hd : jsGet s.dense k = some j
        · have hki : k ≠ i := by
            intro he
            subst he
            rw [h2] at hd
            injection hd with hd2
            exact hj hd2.symm
          have hkl : k ≠ s.dense.length - 1 := by
            intro he
            subst he
            rw [hlid_dense] at hd
            injection hd with hd2
            exact hjl hd2.symm
          have hklt : k < s.dense.length := lt_of_jsGet_eq_some hd
          have hk1 : k < s.dense.length - 1 := by omega
          have hde : jsGet (jsPop (jsWriteOpt s.dense i (some lid))) k =
              jsGet s.dense k := by
            rw [jsGet_jsPop, hlen_dense, if_pos hk1]
            exact jsGet_jsWriteOpt_ne _ _ hki
          have hda :
              jsGet (jsPop (jsWriteOpt s.data i (jsGet s.data (s.dense.length - 1)))) k =
                jsGet s.data k := by
            rw [jsGet_jsPop, hlen_data, if_pos (by omega : k < s.data.length - 1)]
            exact jsGet_jsWriteOpt_ne _ _ hki
          rw [hde, hda]
          exact ⟨rfl, rfl⟩
        · have hne : jsGet (jsPop (jsWriteOpt s.dense i (some lid))) k ≠ some j := by
            rw [jsGet_jsPop, hlen_dense]
            split
            · by_cases hki : k = i
              · subst hki
                rw [jsGet_jsWriteOpt_self]
                intro he
                injection he with he2
                exact hjl he2.symm
              · rw [jsGet_jsWriteOpt_ne _ _ hki]
                exact hd
            · exact fun he => Option.noConfusion he
          constructor
          · have e1 : (jsGet (jsPop (jsWriteOpt s.dense i (some lid))) k == some j) = false := by
              rw [beq_eq_false_iff_ne]
              exact hne
            have e2 : (jsGet s.dense k == some j) = false := by
              rw [beq_eq_false_iff_ne]
              exact hd
            rw [e1, e2]
          · rw [if_neg hne, if_neg hd]

/-! ### Density: the iterator and the live-entry count -/

theorem entries_length (s : SparseSet V) : s.entries.length = s.size := by
  unfold entries size
  simp

theorem entries_getElem (s : SparseSet V) {k : Nat} (hk : k < s.dense.length) :
    s.entries[k]? = some (jsGet s.dense k, jsGet s.data k) := by
  unfold entries
  rw [List.getElem?_map, List.getElem?_range hk]
  rfl

theorem mem_entries {s : SparseSet V} {e : Option Nat × Option V} :
    e ∈ s.entries ↔
      ∃ k, k < s.dense.length ∧ e = (jsGet s.dense k, jsGet s.data k) := by
  unfold entries
  constructor
  · intro he
    obtain ⟨k, hk, he2⟩ := List.mem_map.1 he
    exact ⟨k, List.mem_range.1 hk, he2.symm⟩
  · rintro ⟨k, hk, rfl⟩
    exact List.mem_map.2 ⟨k, List.mem_range.2 hk, rfl⟩

theorem lt_sparse_of_has {s : SparseSet V} {id : Nat} (h : s.has id = true) :
    id < s.sparse.length := by
  obtain ⟨i, h1, -, -⟩ := (has_eq_true_iff s id).1 h
  exact lt_of_jsGet_eq_some h1

theorem entries_wf {s : SparseSet V} (hw : Wf s) {e : Option Nat × Option V}
    (he : e ∈ s.entries) :
    ∃ id v, e = (some id, some v) ∧ s.has id = true ∧ s.get id = some v := by
  obtain ⟨k, hk, rfl⟩ := mem_entries.1 he
  obtain ⟨id, hdk, hback⟩ := hw.dense_back hk
  obtain ⟨v, hv⟩ := Option.isSome_iff_exists.1 (hw.data_isSome hk)
  refine ⟨id, v, by rw [hdk, hv], ?_, ?_⟩
  · exact (has_eq_true_iff s id).2 ⟨k, hback, hk, hdk⟩
  · rw [get_of_present hback hdk, hv]

theorem entries_ids_nodup {s : SparseSet V} (hw : Wf s) :
    (s.entries.map Prod.fst).Nodup := by
  unfold entries
  rw [List.map_map]
  refine List.Nodup.map_on ?_ (List.nodup_range _)
  intro x hx y hy hxy
  have hx' := List.mem_range.1 hx
  have hy' := List.mem_range.1 hy
  obtain ⟨idx, hdx, -⟩ := hw.dense_back hx'
  obtain ⟨idy, hdy, -⟩ := hw.dense_back hy'
  simp only [Function.comp] at hxy
  rw [hdx, hdy] at hxy
  cases hxy
  exact hw.dense_inj hdx hdy

theorem card_present {s : SparseSet V} (hw : Wf s) :
    ((Finset.range s.sparse.length).filter (fun id => s.has id = true)).card =
      s.size := by
  have himg : (Finset.range s.sparse.length).filter (fun id => s.has id = true) =
      (Finset.range s.size).image (fun k => (jsGet s.dense k).getD 0) := by
    ext id
    simp only [Finset.mem_filter, Finset.mem_range, Finset.mem_image]
    constructor
    · rintro ⟨-, hhas⟩
      obtain ⟨k, hks, hklt, hkd⟩ := (has_eq_true_iff s id).1 hhas
      refine ⟨k, hklt, ?_⟩
      rw [hkd]
      rfl
    · rintro ⟨k, hk, rfl⟩
      obtain ⟨idk, hdk, hback⟩ := hw.dense_back hk
      rw [hdk]
      simp only [Option.getD_some]
      exact ⟨lt_of_jsGet_eq_some hback,
        (has_eq_true_iff s idk).2 ⟨k, hback, hk, hdk⟩⟩
  rw [himg, Finset.card_image_of_injOn ?_, Finset.card_range]
  intro x hx y hy hxy
  have hx' : x < s.dense.length := by
    have := Finset.mem_coe.1 hx
    exact Finset.mem_range.1 this
  have hy' : y < s.dense.length := by
    have := Finset.mem_coe.1 hy
    exact Finset.mem_range.1 this
  obtain ⟨idx, hdx, -⟩ := hw.dense_back hx'
  obtain ⟨idy, hdy, -⟩ := hw.dense_back hy'
  simp only at hxy
  rw [hdx, hdy] at hxy
  simp only [Option.getD_some] at hxy
  subst hxy
  exact hw.dense_inj hdx hdy

end SparseSet

/-! ### The alternative bounds-checked implementation

Transcribed from the second `SparseSet<V>` class in the repository (the
unnamed source): `has`/`get`/`add`/`remove` carry an explicit
`index < this.dense.length` test, and the sparse array grows to exactly
`id + 1` instead of the 1024-then-doubling policy. -/

namespace SparseSetB

variable {V : Type u}

/-- `has` with the explicit bounds test:
`index !== undefined && index < this.dense.length && this.dense[index] === id`. -/
def has (s : SparseSet V) (id : Nat) : Bool :=
  match jsGet s.sparse id with
  | none => false
  | some index =>
    decide (index < s.dense.length) && (jsGet s.dense index == some id)

/-- `get` with the explicit bounds test in its early-return guard. -/
def get (s : SparseSet V) (id : Nat) : Option V :=
  match jsGet s.sparse id with
  | none => none
  | some index =>
    if s.dense.length ≤ index ∨ jsGet s.dense index ≠ some id then none
    else jsGet s.data index

/-- The miss path of the alternative `add`: append to `dense`/`data`,
then `if (this.sparse.length <= id) this.sparse.length = id + 1;`
and `this.sparse[id] = index`. -/
def addMiss (s : SparseSet V) (id : Nat) (value : V) :
    SparseSet V × V :=
  let index := s.dense.length
  let s1 : SparseSet V :=
    { s with dense := jsWrite s.dense index id, data := jsWrite s.data index value }
  let s2 : SparseSet V :=
    if s1.sparse.length ≤ id then { s1 with sparse := jsSetLength s1.sparse (id + 1) }
    else s1
  ({ s2 with sparse := jsWrite s2.sparse id index }, value)

/-- The alternative `add`, whose overwrite branch also checks
`existing < this.dense.length`. -/
def add (s : SparseSet V) (id : Nat) (value : V) :
    SparseSet V × V :=
  match jsGet s.sparse id with
  | some existing =>
    if existing < s.dense.length ∧ jsGet s.dense existing = some id then
      ({ s with data := jsWrite s.data existing value }, value)
    else addMiss s id value
  | none => addMiss s id value

/-- The alternative `remove`: same swap-remove body behind the
bounds-checked guard. -/
def remove (s : SparseSet V) (id : Nat) :
    SparseSet V :=
  match jsGet s.sparse id with
  | none => s
  | some index =>
    if s.dense.length ≤ index ∨ jsGet s.dense index ≠ some id then s
    else
      let lastIndex := s.dense.length - 1
      let lastId := jsGet s.dense lastIndex
      let s1 : SparseSet V :=
        if index = lastIndex then s
        else
          { s with
            dense := jsWriteOpt s.dense index lastId,
            data := jsWriteOpt s.data index (jsGet s.data lastIndex),
            sparse :=
              match lastId with
              | some lid => jsWrite s.sparse lid index
              | none => s.sparse }
      { s1 with
        dense := jsPop s1.dense,
        data := jsPop s1.data,
        sparse := jsDelete s1.sparse id }

theorem has_eq (s : SparseSet V) (id : Nat) :
    has s id = SparseSet.has s id := by
  unfold has SparseSet.has
  cases hq : jsGet s.sparse id with
  | none => rfl
  | some i =>
    dsimp only
    cases hd : jsGet s.dense i with
    | none => simp
    | some x =>
      by_cases hx : x = id
      · subst hx
        simp [lt_of_jsGet_eq_some hd]
      · simp [hx]

theorem get_eq (s : SparseSet V) (id : Nat) :
    get s id = SparseSet.get s id := by
  unfold get SparseSet.get
  cases hq : jsGet s.sparse id with
  | none => rfl
  | some i =>
    dsimp only
    by_cases hd : jsGet s.dense i = some id
    · rw [if_pos hd, if_neg ?_]
      push_neg
      exact ⟨Nat.lt_of_lt_of_le (lt_of_jsGet_eq_some hd) (Nat.le_refl _), hd⟩
    · rw [if_neg hd, if_pos (Or.inr hd)]

theorem addB_of_present {s : SparseSet V} {id i : Nat} (v : V)
    (h1 : jsGet s.sparse id = some i) (h2 : jsGet s.dense i = some id) :
    add s id v = ({ s with data := jsWrite s.data i v }, v) := by
  unfold add
  rw [h1]
  dsimp only
  rw [if_pos ⟨lt_of_jsGet_eq_some h2, h2⟩]

theorem addB_of_absent {s : SparseSet V} {id : Nat} (v : V)
    (h : SparseSet.has s id = false) : add s id v = addMiss s id v := by
  rw [← has_eq] at h
  unfold has at h
  unfold add
  cases hs : jsGet s.sparse id with
  | none => rfl
  | some i =>
    rw [hs] at h
    dsimp only at h ⊢
    rw [if_neg ?_]
    simp only [Bool.and_eq_false_iff, decide_eq_false_iff_not, beq_eq_false_iff_ne] at h
    rintro ⟨hlt, hd⟩
    rcases h with h | h
    · exact h hlt
    · exact h hd

theorem addMiss_dense (s : SparseSet V) (id : Nat) (v : V) :
    (addMiss s id v).1.dense = s.dense ++ [some id] := by
  simp only [addMiss]
  split <;> exact jsWriteOpt_append _ _

theorem addMiss_data (s : SparseSet V) (id : Nat) (v : V) :
    (addMiss s id v).1.data = jsWrite s.data s.dense.length v := by
  simp only [addMiss]
  split <;> rfl

theorem jsGet_addMiss_sparse (s : SparseSet V) (id j : Nat) (v : V) :
    jsGet (addMiss s id v).1.sparse j =
      if j = id then some s.dense.length else jsGet s.sparse j := by
  simp only [addMiss]
  by_cases hj : j = id
  · subst hj
    rw [if_pos rfl]
    split <;> exact jsGet_jsWrite_self _ _ _
  · rw [if_neg hj]
    split
    · rename_i hle
      rw [jsGet_jsWrite_ne _ _ hj]
      exact jsGet_jsSetLength_of_le (by omega) j
    · exact jsGet_jsWrite_ne _ _ hj

theorem removeB_of_absent {s : SparseSet V} {id : Nat}
    (h : SparseSet.has s id = false) : remove s id = s := by
  rw [← has_eq] at h
  unfold has at h
  unfold remove
  cases hs : jsGet s.sparse id with
  | none => rfl
  | some i =>
    rw [hs] at h
    dsimp only at h ⊢
    rw [if_pos ?_]
    simp only [Bool.and_eq_false_iff, decide_eq_false_iff_not, beq_eq_false_iff_ne] at h
    rcases h with h | h
    · exact Or.inl (by omega)
    · exact Or.inr h

theorem removeB_of_present_last {s : SparseSet V} {id i : Nat}
    (h1 : jsGet s.sparse id = some i) (h2 : jsGet s.dense i = some id)
    (hl : i = s.dense.length - 1) :
    remove s id =
      { sparse := jsDelete s.sparse id, dense := jsPop s.dense,
        data := jsPop s.data } := by
  unfold remove
  rw [h1]
  dsimp only
  rw [if_neg (by push_neg; exact ⟨lt_of_jsGet_eq_some h2, h2⟩)]
  rw [if_pos hl]

theorem removeB_of_present_swap {s : SparseSet V} {id i : Nat}
    (h1 : jsGet s.sparse id = some i) (h2 : jsGet s.dense i = some id)
    (hl : i ≠ s.dense.length - 1) {lid : Nat}
    (hlast : jsGet s.dense (s.dense.length - 1) = some lid) :
    remove s id =
      { sparse := jsDelete (jsWrite s.sparse lid i) id,
        dense := jsPop (jsWriteOpt s.dense i (some lid)),
        data := jsPop (jsWriteOpt s.data i (jsGet s.data (s.dense.length - 1))) } := by
  unfold remove
  rw [h1]
  dsimp only
  rw [if_neg (by push_neg; exact ⟨lt_of_jsGet_eq_some h2, h2⟩)]
  rw [if_neg hl, hlast]

end SparseSetB

/-! ### Observational equivalence of the two implementations -/

variable {V : Type u}

/-- The operations the equivalence claim ranges over. -/
inductive Op (V : Type u)
  | add (id : Nat) (v : V)
  | remove (id : Nat)

/-- One step of the main implementation. -/
def stepA (s : SparseSet V) : Op V → SparseSet V
  | Op.add id v => (s.add id v).1
  | Op.remove id => s.remove id

/-- One step of the alternative implementation. -/
def stepB (s : SparseSet V) : Op V → SparseSet V
  | Op.add id v => (SparseSetB.add s id v).1
  | Op.remove id => SparseSetB.remove s id

/-- Running a sequence of operations on the main implementation from
the empty state. -/
def runA (ops : List (Op V)) : SparseSet V :=
  ops.foldl stepA SparseSet.mkEmpty

/-- Running the same sequence on the alternative implementation. -/
def runB (ops : List (Op V)) : SparseSet V :=
  ops.foldl stepB SparseSet.mkEmpty

/-- The simulation relation: equal `dense` and `data` arrays and
pointwise-equal integer-indexed reads of `sparse` (the two growth
policies produce different sparse lengths but the same defined
entries). -/
def SimR (a b : SparseSet V) : Prop :=
  a.dense = b.dense ∧ a.data = b.data ∧ ∀ j, jsGet a.sparse j = jsGet b.sparse j

theorem has_eq_of_simR {a b : SparseSet V} (h : SimR a b) (id : Nat) :
    a.has id = b.has id := by
  obtain ⟨hd, -, hs⟩ := h
  unfold SparseSet.has
  rw [hs id, hd]

theorem get_eq_of_simR {a b : SparseSet V} (h : SimR a b) (id : Nat) :
    a.get id = b.get id := by
  obtain ⟨hd, hda, hs⟩ := h
  unfold SparseSet.get
  rw [hs id, hd, hda]

theorem stepA_reachable {a : SparseSet V} (h : SparseSet.Reachable a)
    (op : Op V) : SparseSet.Reachable (stepA a op) := by
  cases op with
  | add id v => exact SparseSet.Reachable.add id v h
  | remove id => exact SparseSet.Reachable.remove id h

theorem simR_step {a b : SparseSet V} (hw : SparseSet.Wf a) (h : SimR a b)
    (op : Op V) : SimR (stepA a op) (stepB b op) := by
  have hn : a.dense.length = b.dense.length := by rw [h.1]
  cases op with
  | add id v =>
    show SimR (a.add id v).1 (SparseSetB.add b id v).1
    cases hhas : a.has id with
    | true =>
      obtain ⟨i, h1, hlt, h2⟩ := (SparseSet.has_eq_true_iff a id).1 hhas
      have h1b : jsGet b.sparse id = some i := by rw [← h.2.2 id]; exact h1
      have h2b : jsGet b.dense i = some id := by rw [← h.1]; exact h2
      rw [SparseSet.add_of_present v h1 h2, SparseSetB.addB_of_present v h1b h2b]
      refine ⟨h.1, ?_, h.2.2⟩
      show jsWrite a.data i v = jsWrite b.data i v
      rw [h.2.1]
    | false =>
      have hhasb : b.has id = false := by rw [← has_eq_of_simR h id]; exact hhas
      rw [SparseSet.add_of_absent v hhas, SparseSetB.addB_of_absent v hhasb]
      refine ⟨?_, ?_, ?_⟩
      · show (a.addNew id v).dense = (SparseSetB.addMiss b id v).1.dense
        rw [SparseSet.addNew_dense, SparseSetB.addMiss_dense, h.1]
      · show (a.addNew id v).data = (SparseSetB.addMiss b id v).1.data
        rw [SparseSet.addNew_data, SparseSetB.addMiss_data, h.2.1, hn]
      · intro j
        by_cases hj : j = id
        · subst hj
          rw [SparseSet.jsGet_addNew_sparse_self, SparseSetB.jsGet_addMiss_sparse,
            if_pos rfl, hn]
        · rw [SparseSet.jsGet_addNew_sparse_ne a v hj,
            SparseSetB.jsGet_addMiss_sparse, if_neg hj]
          exact h.2.2 j
  | remove id =>
    show SimR (a.remove id) (SparseSetB.remove b id)
    cases hhas : a.has id with
    | false =>
      have hhasb : b.has id = false := by rw [← has_eq_of_simR h id]; exact hhas
      rw [SparseSet.remove_of_absent hhas, SparseSetB.removeB_of_absent hhasb]
      exact h
    | true =>
      obtain ⟨i, h1, hlt, h2⟩ := (SparseSet.has_eq_true_iff a id).1 hhas
      have h1b : jsGet b.sparse id = some i := by rw [← h.2.2 id]; exact h1
      have h2b : jsGet b.dense i = some id := by rw [← h.1]; exact h2
      by_cases hil : i = a.dense.length - 1
      · rw [SparseSet.remove_of_present_last h1 h2 hil,
          SparseSetB.removeB_of_present_last h1b h2b (by omega)]
        refine ⟨?_, ?_, ?_⟩
        · show jsPop a.dense = jsPop b.dense
          rw [h.1]
        · show jsPop a.data = jsPop b.data
          rw [h.2.1]
        · intro j
          by_cases hj : j = id
          · subst hj
            rw [jsGet_jsDelete_self, jsGet_jsDelete_self]
          · rw [jsGet_jsDelete_ne _ hj, jsGet_jsDelete_ne _ hj]
            exact h.2.2 j
      · obtain ⟨lid, hlid_dense, hlid_back⟩ :=
          hw.dense_back (by omega : a.dense.length - 1 < a.dense.length)
        have hlidb : jsGet b.dense (b.dense.length - 1) = some lid := by
          rw [← h.1]
          exact hlid_dense
        rw [SparseSet.remove_of_present_swap h1 h2 hil hlid_dense,
          SparseSetB.removeB_of_present_swap h1b h2b (by omega) hlidb]
        refine ⟨?_, ?_, ?_⟩
        · show jsPop (jsWriteOpt a.dense i (some lid)) =
            jsPop (jsWriteOpt b.dense i (some lid))
          rw [h.1]
        · show jsPop (jsWriteOpt a.data i (jsGet a.data (a.dense.length - 1))) =
            jsPop (jsWriteOpt b.data i (jsGet b.data (b.dense.length - 1)))
          rw [h.2.1, hn]
        · intro j
          by_cases hj : j = id
          · subst hj
            rw [jsGet_jsDelete_self, jsGet_jsDelete_self]
          · rw [jsGet_jsDelete_ne _ hj, jsGet_jsDelete_ne _ hj]
            by_cases hjl : j = lid
            · subst hjl
              rw [jsGet_jsWrite_self, jsGet_jsWrite_self]
            · rw [jsGet_jsWrite_ne _ _ hjl, jsGet_jsWrite_ne _ _ hjl]
              exact h.2.2 j

theorem simR_foldl (ops : List (Op V)) :
    ∀ a b : SparseSet V, SparseSet.Reachable a → SimR a b →
      SimR (ops.foldl stepA a) (ops.foldl stepB b) := by
  induction ops with
  | nil => intro a b _ h; exact h
  | cons op ops ih =>
    intro a b hr h
    exact ih _ _ (stepA_reachable hr op)
      (simR_step (SparseSet.reachable_wf hr) h op)

theorem simR_run (ops : List (Op V)) : SimR (runA ops) (runB ops) :=
  simR_foldl ops _ _ SparseSet.Reachable.empty ⟨rfl, rfl, fun _ => rfl⟩

theorem reachable_runA (ops : List (Op V)) : SparseSet.Reachable (runA ops) := by
  unfold runA
  generalize hstart : (SparseSet.mkEmpty : SparseSet V) = a
  have hr : SparseSet.Reachable a := hstart ▸ SparseSet.Reachable.empty
  clear hstart
  induction ops generalizing a with
  | nil => exact hr
  | cons op ops ih => exact ih _ (stepA_reachable hr op)

/-! ### Concrete states for the spec's worked examples -/

/-- The state after `add(10,100); add(20,200); add(30,300)` on a fresh
set. -/
def exSeq : SparseSet Nat :=
  ((((SparseSet.mkEmpty : SparseSet Nat).add 10 100).1.add 20 200).1.add 30 300).1

/-- `exSeq` after `remove(20)`. -/
def exRemoved : SparseSet Nat :=
  exSeq.remove 20

/-- A state whose sparse array has grown to the initial 1024 slots. -/
def exGrown : SparseSet Nat :=
  ((SparseSet.mkEmpty : SparseSet Nat).add 0 0).1

/-- Concrete factories for the `ensure` witnesses. -/
def mkSeven : Unit → Nat := fun _ => 7

def mkEight : Unit → Nat := fun _ => 8

/-! ### The claims -/

/-- C1: `has(id)` is true exactly when `sparse[id]` holds an index `i`
with `0 ≤ i < len(dense)` and `dense[i] == id` — the implementation's
omission of the explicit `i < len(dense)` comparison is equivalent to
the spec's two-part check because an out-of-range or hole read of
`dense` can never equal `id`; under that same condition `get(id)`
returns `data[i]`, and otherwise (including every `id` at or beyond the
sparse array's length, and never-seen ids) `has` is false and `get`
absent, with no error possible (both functions are total). -/
theorem has_get_presence_spec (s : SparseSet V) (id : Nat) :
    (s.has id = true ↔
      ∃ i, jsGet s.sparse id = some i ∧ i < s.dense.length ∧
        jsGet s.dense i = some id) ∧
    (∀ i, jsGet s.sparse id = some i → jsGet s.dense i = some id →
      s.get id = jsGet s.data i) ∧
    (s.has id = false → s.get id = none) ∧
    (s.sparse.length ≤ id → s.has id = false ∧ s.get id = none) := by
  refine ⟨SparseSet.has_eq_true_iff s id, ?_, ?_, ?_⟩
  · intro i hi hd
    exact SparseSet.get_of_present hi hd
  · exact SparseSet.get_of_has_false
  · intro hle
    have hf := SparseSet.has_of_le_sparse hle
    exact ⟨hf, SparseSet.get_of_has_false hf⟩

set_option maxRecDepth 100000 in
/-- Witness for C1 at concrete states. -/
theorem has_get_presence_spec_witness :
    exSeq.get 20 = jsGet exSeq.data 1 ∧
    (SparseSet.mkEmpty : SparseSet Nat).has 5 = false ∧
    (SparseSet.mkEmpty : SparseSet Nat).get 5 = none :=
  ⟨(has_get_presence_spec exSeq 20).2.1 1 (by decide) (by decide),
   ((has_get_presence_spec (SparseSet.mkEmpty : SparseSet Nat) 5).2.2.2
      (by decide)).1,
   ((has_get_presence_spec (SparseSet.mkEmpty : SparseSet Nat) 5).2.2.2
      (by decide)).2⟩

set_option maxRecDepth 400000 in
/-- C2: when `id` is present at dense index `i`, `remove(id)` performs
the swap-remove: it shrinks `dense` and `data` by one slot, makes `id`
absent, and when `i` is not the last slot it moves the last identifier
`lastId` and its value into slot `i` and repoints `sparse[lastId]` to
`i`, leaving every other identifier's presence and value unchanged; in
particular after `add(10,100); add(20,200); add(30,300); remove(20)`
the observations of the spec's worked example hold and the dense order
is `[10, 30]` with 30 in the slot 20 vacated. -/
theorem remove_swap_spec (s : SparseSet V) (id i : Nat) (hw : SparseSet.Wf s)
    (h1 : jsGet s.sparse id = some i) (h2 : jsGet s.dense i = some id) :
    ((s.remove id).size = s.size - 1 ∧
     (s.remove id).data.length = s.data.length - 1 ∧
     (s.remove id).has id = false ∧
     (∀ lid, i ≠ s.dense.length - 1 →
        jsGet s.dense (s.dense.length - 1) = some lid →
        jsGet (s.remove id).dense i = some lid ∧
        jsGet (s.remove id).data i = jsGet s.data (s.dense.length - 1) ∧
        jsGet (s.remove id).sparse lid = some i) ∧
     (∀ j, j ≠ id →
        (s.remove id).has j = s.has j ∧ (s.remove id).get j = s.get j)) ∧
    (exRemoved.has 10 = true ∧ exRemoved.get 10 = some 100 ∧
     exRemoved.has 30 = true ∧ exRemoved.get 30 = some 300 ∧
     exRemoved.has 20 = false ∧
     exRemoved.dense = [some 10, some 30] ∧
     exRemoved.data = [some 100, some 300]) := by
  refine ⟨⟨(SparseSet.size_remove_present hw h1 h2).1,
    (SparseSet.size_remove_present hw h1 h2).2,
    SparseSet.has_remove_self hw h1 h2, ?_, ?_⟩, ?_⟩
  · intro lid hil hlast
    exact SparseSet.remove_present_moved hw h1 h2 hil hlast
  · intro j hj
    exact SparseSet.remove_present_frame hw h1 h2 hj
  · exact ⟨by decide, by decide, by decide, by decide, by decide,
      by decide, by decide⟩

set_option maxRecDepth 400000 in
/-- Witness for C2 at the spec's worked example. -/
theorem remove_swap_spec_witness :
    SparseSet.Wf exSeq ∧ jsGet exSeq.sparse 20 = some 1 ∧
    jsGet exSeq.dense 1 = some 20 ∧ (exSeq.remove 20).has 20 = false :=
  ⟨by decide, by decide, by decide,
   (remove_swap_spec exSeq 20 1 (by decide) (by decide) (by decide)).1.2.2.1⟩

/-- C3: in every state reachable from the empty structure by `add`,
`ensure`, `remove`, and `clear`, `size` equals the number of
identifiers with `has(id)` true (all of which lie below the sparse
length, so the count over that range is the full count), and the
traversal yields exactly `size` entries, each a defined `(id, value)`
pair with `id` present and `value` its stored value, with no duplicated
identifier. -/
theorem density_spec (s : SparseSet V) (hr : SparseSet.Reachable s) :
    ((Finset.range s.sparse.length).filter (fun id => s.has id = true)).card =
      s.size ∧
    (∀ id, s.has id = true → id < s.sparse.length) ∧
    s.entries.length = s.size ∧
    (∀ e ∈ s.entries,
      ∃ id v, e = (some id, some v) ∧ s.has id = true ∧ s.get id = some v) ∧
    (s.entries.map Prod.fst).Nodup := by
  have hw := SparseSet.reachable_wf hr
  exact ⟨SparseSet.card_present hw, fun id h => SparseSet.lt_sparse_of_has h,
    SparseSet.entries_length s, fun e he => SparseSet.entries_wf hw he,
    SparseSet.entries_ids_nodup hw⟩

/-- Witness for C3 at the (reachable) empty state. -/
theorem density_spec_witness :
    ((Finset.range (SparseSet.mkEmpty : SparseSet Nat).sparse.length).filter
        (fun id => (SparseSet.mkEmpty : SparseSet Nat).has id = true)).card =
      (SparseSet.mkEmpty : SparseSet Nat).size :=
  (density_spec (SparseSet.mkEmpty : SparseSet Nat) SparseSet.Reachable.empty).1

set_option maxRecDepth 400000 in
/-- C4 counterexample: `clear()` sets `sparse.length = 0`, so a state
whose sparse array has grown (here to 1024 slots) shrinks it on
`clear`, contradicting the claim that the sparse length never decreases
across any operation including `clear`. -/
theorem sparse_shrinks_on_clear :
    ¬ exGrown.sparse.length ≤ exGrown.clear.sparse.length := by
  decide

/-- C4 (amended): the sparse array's length never decreases across
`add`, `ensure`, and `remove`; `clear()`, however, resets the sparse
array's length to 0. -/
theorem sparse_length_monotone (s : SparseSet V) (id : Nat) (v : V)
    (f : Unit → V) :
    s.sparse.length ≤ (s.add id v).1.sparse.length ∧
    s.sparse.length ≤ (s.ensure id f).1.sparse.length ∧
    s.sparse.length ≤ (s.remove id).sparse.length ∧
    s.clear.sparse.length = 0 := by
  refine ⟨?_, ?_, ?_, ?_⟩
  · cases hhas : s.has id with
    | true =>
      obtain ⟨i, h1, hlt, h2⟩ := (SparseSet.has_eq_true_iff s id).1 hhas
      rw [SparseSet.add_of_present v h1 h2]
    | false =>
      rw [SparseSet.add_of_absent v hhas]
      exact SparseSet.sparse_length_le_addNew s id v
  · cases hhas : s.has id with
    | true =>
      obtain ⟨i, h1, hlt, h2⟩ := (SparseSet.has_eq_true_iff s id).1 hhas
      rw [SparseSet.ensure_of_present f h1 h2]
    | false =>
      rw [SparseSet.ensure_of_absent f hhas]
      exact SparseSet.sparse_length_le_addNew s id (f ())
  · cases hhas : s.has id with
    | false => rw [SparseSet.remove_of_absent hhas]
    | true =>
      obtain ⟨i, h1, hlt, h2⟩ := (SparseSet.has_eq_true_iff s id).1 hhas
      by_cases hil : i = s.dense.length - 1
      · rw [SparseSet.remove_of_present_last h1 h2 hil]
        show s.sparse.length ≤ (jsDelete s.sparse id).length
        rw [length_jsDelete]
      · cases hlast : jsGet s.dense (s.dense.length - 1) with
        | some lid =>
          rw [SparseSet.remove_of_present_swap h1 h2 hil hlast]
          show s.sparse.length ≤ (jsDelete (jsWrite s.sparse lid i) id).length
          rw [length_jsDelete]
          exact length_jsWrite_ge _ _ _
        | none =>
          rw [SparseSet.remove_of_present_swap_none h1 h2 hil hlast]
          show s.sparse.length ≤ (jsDelete s.sparse id).length
          rw [length_jsDelete]
  · show (jsSetLength s.sparse 0).length = 0
    rw [length_jsSetLength]

/-- C5: `ensure` on a present id returns the value currently stored,
leaves the state unchanged, and never invokes the factory (its result
is factory-independent and the invocation count is 0); on an absent id
it produces exactly the state `add(id, factory())` produces and returns
the factory's value (invocation count 1); in particular after
`add(id, v)` it returns `v` without invoking the factory. -/
theorem ensure_spec (s : SparseSet V) (id : Nat) (f g : Unit → V) (v : V) :
    (s.has id = true →
      s.ensure id f = (s, s.get id) ∧ s.ensure id f = s.ensure id g ∧
      s.ensureCalls id = 0) ∧
    (s.has id = false →
      s.ensure id f = ((s.add id (f ())).1, some (f ())) ∧
      s.ensureCalls id = 1) ∧
    ((s.add id v).1.ensure id f = ((s.add id v).1, some v) ∧
     (s.add id v).1.ensureCalls id = 0) :=
  ⟨fun h => SparseSet.ensure_hit s id f g h,
   fun h => SparseSet.ensure_miss s id f h,
   SparseSet.ensure_after_add s id v f⟩

set_option maxRecDepth 400000 in
/-- Witness for C5 at concrete states and factories. -/
theorem ensure_spec_witness :
    exSeq.has 10 = true ∧ exSeq.ensure 10 mkSeven = (exSeq, exSeq.get 10) ∧
    (SparseSet.mkEmpty : SparseSet Nat).has 5 = false ∧
    (SparseSet.mkEmpty : SparseSet Nat).ensure 5 mkSeven =
      (((SparseSet.mkEmpty : SparseSet Nat).add 5 (mkSeven ())).1,
        some (mkSeven ())) :=
  ⟨by decide, ((ensure_spec exSeq 10 mkSeven mkEight 0).1 (by decide)).1,
   by decide,
   ((ensure_spec (SparseSet.mkEmpty : SparseSet Nat) 5 mkSeven mkEight 0).2.1
      (by decide)).1⟩

/-- C6: when `id` is present at dense index `i`, `add(id, v)` returns
`v` and overwrites only `data[i]`: `sparse` and `dense` are unchanged
(so the dense slot of `id` does not change and `tryGetIndex` still
returns `i`), every other data slot is unchanged, `size` is unchanged,
`get(id)` becomes `v`, and every other identifier's presence, value and
dense position are untouched; in particular `add(id,v1); add(id,v2)`
leaves `size` unchanged and `get(id) == v2`. -/
theorem add_overwrite_spec (s : SparseSet V) (id i : Nat) (v v1 v2 : V)
    (h1 : jsGet s.sparse id = some i) (h2 : jsGet s.dense i = some id) :
    (s.add id v).2 = v ∧
    (s.add id v).1.sparse = s.sparse ∧
    (s.add id v).1.dense = s.dense ∧
    jsGet (s.add id v).1.data i = some v ∧
    (∀ k, k ≠ i → jsGet (s.add id v).1.data k = jsGet s.data k) ∧
    (s.add id v).1.size = s.size ∧
    (s.add id v).1.get id = some v ∧
    (s.add id v).1.tryGetIndex id = (i : Int) ∧
    (∀ j, j ≠ id →
      (s.add id v).1.has j = s.has j ∧ (s.add id v).1.get j = s.get j ∧
      (s.add id v).1.tryGetIndex j = s.tryGetIndex j) ∧
    (((s.add id v1).1.add id v2).1.size = (s.add id v1).1.size ∧
     ((s.add id v1).1.add id v2).1.get id = some v2) := by
  have hadd := SparseSet.add_of_present v h1 h2
  refine ⟨by rw [hadd], by rw [hadd], by rw [hadd], ?_, ?_,
    SparseSet.size_add_present v h1 h2, SparseSet.get_add_self s id v, ?_, ?_, ?_⟩
  · rw [hadd]
    exact jsGet_jsWrite_self _ _ _
  · intro k hk
    rw [hadd]
    exact jsGet_jsWrite_ne _ _ hk
  · rw [hadd]
    exact SparseSet.tryGetIndex_of_present h1 h2
  · intro j hj
    exact SparseSet.add_present_frame v h1 h2 hj
  · obtain ⟨i2, h1b, hlt2, h2b⟩ :=
      (SparseSet.has_eq_true_iff _ id).1 (SparseSet.has_add_self s id v1)
    exact ⟨SparseSet.size_add_present v2 h1b h2b,
      SparseSet.get_add_self _ id v2⟩

set_option maxRecDepth 400000 in
/-- Witness for C6 at a concrete overwrite. -/
theorem add_overwrite_spec_witness :
    jsGet exSeq.sparse 20 = some 1 ∧ (exSeq.add 20 999).1.size = exSeq.size ∧
    (exSeq.add 20 999).1.get 20 = some 999 :=
  ⟨by decide,
   (add_overwrite_spec exSeq 20 1 999 0 0 (by decide) (by decide)).2.2.2.2.2.1,
   (add_overwrite_spec exSeq 20 1 999 0 0 (by decide) (by decide)).2.2.2.2.2.2.1⟩

/-- C7: removing an absent identifier (per the presence invariant) is a
silent no-op: the state is unchanged — hence `size` and every other
identifier's presence and value are unaffected — and no error is
possible (the operation is total), including when the id was previously
present and already removed. -/
theorem remove_absent_spec (s : SparseSet V) (id : Nat)
    (h : s.has id = false) :
    s.remove id = s ∧ (s.remove id).size = s.size ∧
    (∀ j, (s.remove id).has j = s.has j ∧ (s.remove id).get j = s.get j) := by
  have he := SparseSet.remove_of_absent h
  exact ⟨he, by rw [he], fun j => ⟨by rw [he], by rw [he]⟩⟩

set_option maxRecDepth 400000 in
/-- Witness for C7: removing the already-removed identifier 20. -/
theorem remove_absent_spec_witness :
    exRemoved.has 20 = false ∧ exRemoved.remove 20 = exRemoved :=
  ⟨by decide, (remove_absent_spec exRemoved 20 (by decide)).1⟩

/-- C8: `tryGetIndex(id)` returns the dense position of `id` (a valid
index below `size`) when present and the sentinel `-1` when absent; and
immediately after `add(id, v)` it returns a valid index `i` such that
the traversal entry at position `i` is the pair `(id, v)`. -/
theorem tryGetIndex_spec (s : SparseSet V) (id : Nat) (v : V) :
    (∀ i, jsGet s.sparse id = some i → jsGet s.dense i = some id →
      s.tryGetIndex id = (i : Int) ∧ i < s.size) ∧
    (s.has id = false → s.tryGetIndex id = -1) ∧
    (∃ i : Nat, (s.add id v).1.tryGetIndex id = (i : Int) ∧
      i < (s.add id v).1.size ∧
      ((s.add id v).1.entries)[i]? = some (some id, some v)) := by
  refine ⟨?_, SparseSet.tryGetIndex_of_has_false, ?_⟩
  · intro i hi hd
    exact ⟨SparseSet.tryGetIndex_of_present hi hd, lt_of_jsGet_eq_some hd⟩
  · obtain ⟨i, h1, hlt, h2⟩ :=
      (SparseSet.has_eq_true_iff _ id).1 (SparseSet.has_add_self s id v)
    have hg := SparseSet.get_of_present h1 h2
    rw [SparseSet.get_add_self] at hg
    refine ⟨i, SparseSet.tryGetIndex_of_present h1 h2, hlt, ?_⟩
    rw [SparseSet.entries_getElem _ hlt, h2, ← hg]

set_option maxRecDepth 400000 in
/-- Witness for C8 at a concrete present identifier. -/
theorem tryGetIndex_spec_witness :
    exSeq.tryGetIndex 20 = ((1 : Nat) : Int) ∧ (1 : Nat) < exSeq.size :=
  (tryGetIndex_spec exSeq 20 0).1 1 (by decide) (by decide)

/-- C9: after `clear()` the structure is observationally empty: `size`
is 0, every identifier (in particular every previously-present one) is
absent with `get` returning the absent result, and the traversal yields
no entries. -/
theorem clear_spec (s : SparseSet V) :
    s.clear.size = 0 ∧
    (∀ id, s.clear.has id = false ∧ s.clear.get id = none) ∧
    s.clear.entries = [] := by
  rw [SparseSet.clear_eq_mkEmpty]
  exact ⟨rfl, fun id => ⟨rfl, rfl⟩, rfl⟩

/-- C10: the main implementation and the alternative bounds-checked
implementation (explicit `index < dense.length` tests, sparse growth to
exactly `id + 1`) are observationally equivalent: after any sequence of
`add`/`remove` operations applied to both from the empty state, `has`
and `get` agree on every identifier. -/
theorem impl_equiv_spec (ops : List (Op V)) (id : Nat) :
    (runA ops).has id = SparseSetB.has (runB ops) id ∧
    (runA ops).get id = SparseSetB.get (runB ops) id := by
  have h := simR_run ops
  constructor
  · rw [SparseSetB.has_eq]
    exact has_eq_of_simR h id
  · rw [SparseSetB.get_eq]
    exact get_eq_of_simR h id

end SparseSetVerif
